import Mathlib

/-!
Shallow embedding of the lvalue subsystem of the babylon parser
(src/src/parser/lval.js): pattern conversion (toAssignable,
toAssignableList), lvalue validation (checkLVal) and the binding-identifier
helpers (shouldAllowYieldIdentifier, parseBindingIdentifier).

AST nodes are dynamic records in the source; here a node is a single
constructor carrying every field the embedded functions read or write.
In-place mutation plus exception-raising is modelled by returning the tree
state at the moment the function returns or throws, paired with the first
raised error (if any).
-/

namespace Lval

/-- A parse error: position and message, as produced by raise(pos, msg). -/
structure Err where
  pos : Nat
  msg : String
deriving DecidableEq, Repr

/-- An AST node. Field order: type, start, endPos, name, operator, kind,
properties, elements, value, argument, left, key. Fields a given node kind
does not carry in the source are none / empty / default here. -/
inductive Node where
  | mk (type : String) (start : Nat) (endPos : Nat) (name : String)
       (operator : Option String) (kind : String)
       (properties : List Node) (elements : List (Option Node))
       (value : Option Node) (argument : Option Node)
       (left : Option Node) (key : Option Node)

def Node.type : Node → String
  | .mk t _ _ _ _ _ _ _ _ _ _ _ => t

def Node.start : Node → Nat
  | .mk _ s _ _ _ _ _ _ _ _ _ _ => s

def Node.endPos : Node → Nat
  | .mk _ _ e _ _ _ _ _ _ _ _ _ => e

def Node.name : Node → String
  | .mk _ _ _ nm _ _ _ _ _ _ _ _ => nm

def Node.operator : Node → Option String
  | .mk _ _ _ _ op _ _ _ _ _ _ _ => op

def Node.kind : Node → String
  | .mk _ _ _ _ _ k _ _ _ _ _ _ => k

def Node.properties : Node → List Node
  | .mk _ _ _ _ _ _ ps _ _ _ _ _ => ps

def Node.elements : Node → List (Option Node)
  | .mk _ _ _ _ _ _ _ es _ _ _ _ => es

def Node.value : Node → Option Node
  | .mk _ _ _ _ _ _ _ _ v _ _ _ => v

def Node.argument : Node → Option Node
  | .mk _ _ _ _ _ _ _ _ _ a _ _ => a

def Node.left : Node → Option Node
  | .mk _ _ _ _ _ _ _ _ _ _ l _ => l

def Node.key : Node → Option Node
  | .mk _ _ _ _ _ _ _ _ _ _ _ k => k

def Node.setType : Node → String → Node
  | .mk _ s e nm op k ps es v a l ky, t => .mk t s e nm op k ps es v a l ky

def Node.setOperator : Node → Option String → Node
  | .mk t s e nm _ k ps es v a l ky, op => .mk t s e nm op k ps es v a l ky

def Node.setProperties : Node → List Node → Node
  | .mk t s e nm op k _ es v a l ky, ps => .mk t s e nm op k ps es v a l ky

def Node.setElements : Node → List (Option Node) → Node
  | .mk t s e nm op k ps _ v a l ky, es => .mk t s e nm op k ps es v a l ky

def Node.setValue : Node → Option Node → Node
  | .mk t s e nm op k ps es _ a l ky, v => .mk t s e nm op k ps es v a l ky

def Node.setArgument : Node → Option Node → Node
  | .mk t s e nm op k ps es v _ l ky, a => .mk t s e nm op k ps es v a l ky

/-- Position node.left.end used by the malformed-default raise; a left child
is always present on an AssignmentExpression node. -/
def Node.leftEnd (n : Node) : Nat :=
  match n.left with
  | some l => l.endPos
  | none => 0

/-- Position prop.key.start used by the object-method raises; a key is always
present on an ObjectMethod node. -/
def Node.keyStart (n : Node) : Nat :=
  match n.key with
  | some k => k.start
  | none => 0

/-- The effective validation target of a property in checkLVal: its value
when the property wraps one (prop = prop.value), else the property itself.
An ObjectProperty node always carries a value in practice. -/
def Node.valueD (n : Node) : Node :=
  match n.value with
  | some v => v
  | none => n

section SizeLemmas

theorem sizeOf_value_lt {n v : Node} (h : n.value = some v) :
    sizeOf v < sizeOf n := by
  cases n with
  | mk t s e nm op k ps es vv a l ky =>
    simp [Node.value] at h
    subst h
    simp
    omega

theorem sizeOf_argument_lt {n a : Node} (h : n.argument = some a) :
    sizeOf a < sizeOf n := by
  cases n with
  | mk t s e nm op k ps es vv aa l ky =>
    simp [Node.argument] at h
    subst h
    simp
    omega

theorem sizeOf_left_lt {n l : Node} (h : n.left = some l) :
    sizeOf l < sizeOf n := by
  cases n with
  | mk t s e nm op k ps es vv aa ll ky =>
    simp [Node.left] at h
    subst h
    simp
    omega

theorem sizeOf_valueD_le (n : Node) : sizeOf n.valueD ≤ sizeOf n := by
  unfold Node.valueD
  cases hv : n.value with
  | none => exact Nat.le_refl _
  | some v => exact Nat.le_of_lt (sizeOf_value_lt hv)

theorem sizeOf_properties_lt (n : Node) : sizeOf n.properties < sizeOf n := by
  cases n with
  | mk t s e nm op k ps es vv aa l ky =>
    simp [Node.properties]
    omega

theorem sizeOf_elements_lt (n : Node) : sizeOf n.elements < sizeOf n := by
  cases n with
  | mk t s e nm op k ps es vv aa l ky =>
    simp [Node.elements]
    omega

theorem one_le_sizeOf_list {α : Type} [SizeOf α] (l : List α) :
    1 ≤ sizeOf l := by
  cases l with
  | nil => rw [List.nil.sizeOf_spec]
  | cons a t =>
    rw [List.cons.sizeOf_spec]
    omega

theorem sizeOf_elements_add_one_lt (n : Node) :
    sizeOf n.elements + 1 < sizeOf n := by
  cases n with
  | mk t s e nm op k ps es vv aa l ky =>
    have hps := one_le_sizeOf_list ps
    simp [Node.elements]
    omega

theorem sizeOf_dropLast_le {α : Type} [SizeOf α] (l : List α) :
    sizeOf l.dropLast ≤ sizeOf l := by
  induction l with
  | nil => simp
  | cons a t ih =>
    cases t with
    | nil => simp
    | cons b t2 =>
      rw [List.dropLast_cons₂]
      simp only [List.cons.sizeOf_spec] at ih ⊢
      omega

theorem mem_of_getLastQ {α : Type} {l : List α} {a : α}
    (h : l.getLast? = some a) : a ∈ l := by
  induction l with
  | nil => simp at h
  | cons b t ih =>
    cases t with
    | nil =>
      rw [List.getLast?_singleton] at h
      injection h with h
      subst h
      exact List.mem_singleton_self _
    | cons c t2 =>
      rw [List.getLast?_cons_cons] at h
      exact List.mem_cons_of_mem _ (ih h)

theorem ne_nil_of_getLastQ {α : Type} {l : List α} {a : α}
    (h : l.getLast? = some a) : l ≠ [] := by
  intro he
  subst he
  simp at h

end SizeLemmas

/-- Message of raise in the ObjectExpression case for get/set methods. -/
def accessorMsg : String := "Object pattern can\x27t contain getter or setter"

/-- Message of raise in the ObjectExpression case for other methods. -/
def methodMsg : String := "Object pattern can\x27t contain methods"

/-- Message of raise in the AssignmentExpression case for non-= operators. -/
def malformedDefaultMsg : String :=
  "Only \x27=\x27 operator can be used for specifying default value."

/-- Message of raise for a SpreadElement at a non-last position. -/
def misplacedRestMsg : String :=
  "The rest element has to be the last element when destructuring"

/-- Message of raise for a duplicate binding under a clash map. -/
def clashMsg : String := "Argument name clash in strict mode"

/-- Modelled from the spec: the error-channel collaborator unexpected(pos)
(defined outside this file) raises a context-free unexpected-token error. -/
def unexpectedMsg : String := "Unexpected token"

/-- Message of the default case of toAssignable. -/
def invalidLHSMsg (ctx : String) : String :=
  "Invalid left-hand side" ++ (if ctx ≠ "" then " in " ++ ctx else "expression")

mutual

/-- toAssignable on a present node (the switch body of the source function).
Returns the node state at return or throw time, with the first raised
error if one was raised. -/
def toAssignableN (n : Node) (isBinding : Bool) (ctx : String) :
    Node × Option Err :=
  if n.type = "Identifier" ∨ n.type = "PrivateName" ∨ n.type = "ObjectPattern"
      ∨ n.type = "ArrayPattern" ∨ n.type = "AssignmentPattern" then
    (n, none)
  else if n.type = "ObjectExpression" then
    let r := convertProps n.properties isBinding
    ((n.setType "ObjectPattern").setProperties r.1, r.2)
  else if n.type = "ObjectProperty" then
    match h : n.value with
    | none => (n, none)
    | some v =>
      let r := toAssignableN v isBinding ctx
      (n.setValue (some r.1), r.2)
  else if n.type = "SpreadElement" then
    match h : n.argument with
    | none => (n.setType "RestElement", none)
    | some a =>
      let r := toAssignableN a isBinding ctx
      ((n.setType "RestElement").setArgument (some r.1), r.2)
  else if n.type = "ArrayExpression" then
    let r := toAssignableList n.elements isBinding ctx
    ((n.setType "ArrayPattern").setElements r.1, r.2)
  else if n.type = "AssignmentExpression" then
    if n.operator = some "=" then
      ((n.setType "AssignmentPattern").setOperator none, none)
    else
      (n, some ⟨n.leftEnd, malformedDefaultMsg⟩)
  else if n.type = "MemberExpression" ∧ isBinding = false then
    (n, none)
  else
    (n, some ⟨n.start, invalidLHSMsg ctx⟩)
termination_by sizeOf n
decreasing_by
  all_goals simp_wf
  · have := sizeOf_properties_lt n
    omega
  · exact sizeOf_value_lt h
  · exact sizeOf_argument_lt h
  · have := sizeOf_elements_add_one_lt n
    omega

/-- The property loop of the ObjectExpression case of toAssignable. -/
def convertProps (ps : List Node) (isBinding : Bool) :
    List Node × Option Err :=
  match ps with
  | [] => ([], none)
  | p :: tl =>
    if p.type = "ObjectMethod" then
      if p.kind = "get" ∨ p.kind = "set" then
        (p :: tl, some ⟨p.keyStart, accessorMsg⟩)
      else
        (p :: tl, some ⟨p.keyStart, methodMsg⟩)
    else
      let rp := toAssignableN p isBinding "object destructuring pattern"
      match rp.2 with
      | some e => (rp.1 :: tl, some e)
      | none =>
        let r := convertProps tl isBinding
        (rp.1 :: r.1, r.2)
termination_by sizeOf ps
decreasing_by
  all_goals simp_wf
  all_goals
    (try simp only [List.cons.sizeOf_spec, Option.some.sizeOf_spec]) <;> omega

/-- The index loop of toAssignableList over the first end elements:
a present SpreadElement raises misplaced-rest before being converted,
holes are skipped, other present elements are converted in order. -/
def convertElems (l : List (Option Node)) (isBinding : Bool) (ctx : String) :
    List (Option Node) × Option Err :=
  match l with
  | [] => ([], none)
  | none :: tl =>
    let r := convertElems tl isBinding ctx
    (none :: r.1, r.2)
  | some n :: tl =>
    if n.type = "SpreadElement" then
      (some n :: tl, some ⟨n.start, misplacedRestMsg⟩)
    else
      let rn := toAssignableN n isBinding ctx
      match rn.2 with
      | some e => (some rn.1 :: tl, some e)
      | none =>
        let r := convertElems tl isBinding ctx
        (some rn.1 :: r.1, r.2)
termination_by sizeOf l
decreasing_by
  all_goals simp_wf
  all_goals
    (try simp only [List.cons.sizeOf_spec, Option.some.sizeOf_spec]) <;> omega

/-- toAssignableList: special handling of a present last RestElement or
SpreadElement, then the loop over the remaining elements. -/
def toAssignableList (l : List (Option Node)) (isBinding : Bool)
    (ctx : String) : List (Option Node) × Option Err :=
  match hv : l.getLast? with
  | none => (l, none)
  | some none => convertElems l isBinding ctx
  | some (some lastN) =>
    if lastN.type = "RestElement" then
      let r := convertElems l.dropLast isBinding ctx
      (r.1 ++ [some lastN], r.2)
    else if lastN.type = "SpreadElement" then
      match ha : lastN.argument with
      | none =>
        ((l.dropLast ++ [some (lastN.setType "RestElement")]),
          some ⟨0, unexpectedMsg⟩)
      | some a =>
        let ra := toAssignableN a isBinding ctx
        let n2 := (lastN.setType "RestElement").setArgument (some ra.1)
        match ra.2 with
        | some e => (l.dropLast ++ [some n2], some e)
        | none =>
          if ra.1.type = "Identifier" ∨ ra.1.type = "MemberExpression"
              ∨ ra.1.type = "ArrayPattern" then
            let r := convertElems l.dropLast isBinding ctx
            (r.1 ++ [some n2], r.2)
          else
            (l.dropLast ++ [some n2], some ⟨ra.1.start, unexpectedMsg⟩)
    else
      convertElems l isBinding ctx
termination_by sizeOf l + 1
decreasing_by
  all_goals simp_wf
  all_goals
    first
    | omega
    | (have h1 := sizeOf_dropLast_le l
       omega)
    | (have h2 := List.sizeOf_lt_of_mem (mem_of_getLastQ hv)
       have h3 := sizeOf_argument_lt ha
       simp at h2
       omega)

end

/-- toAssignable including the truthiness guard on absent nodes. -/
def toAssignable (o : Option Node) (isBinding : Bool) (ctx : String) :
    Option Node × Option Err :=
  match o with
  | none => (none, none)
  | some n =>
    let r := toAssignableN n isBinding ctx
    (some r.1, r.2)

section RewriteLemmas

variable {n v a lastN : Node} {b : Bool} {ctx : String}

theorem toAssignableN_patt
    (h : n.type = "Identifier" ∨ n.type = "PrivateName"
      ∨ n.type = "ObjectPattern" ∨ n.type = "ArrayPattern"
      ∨ n.type = "AssignmentPattern") :
    toAssignableN n b ctx = (n, none) := by
  rw [toAssignableN.eq_1]
  simp [h]

theorem toAssignableN_objExpr (h : n.type = "ObjectExpression") :
    toAssignableN n b ctx =
      ((n.setType "ObjectPattern").setProperties (convertProps n.properties b).1,
        (convertProps n.properties b).2) := by
  rw [toAssignableN.eq_1]
  simp [h]

theorem toAssignableN_objProp_none (h : n.type = "ObjectProperty")
    (hv : n.value = none) :
    toAssignableN n b ctx = (n, none) := by
  rw [toAssignableN.eq_1]
  simp [h]
  split <;> simp_all

theorem toAssignableN_objProp_some (h : n.type = "ObjectProperty")
    (hv : n.value = some v) :
    toAssignableN n b ctx =
      (n.setValue (some (toAssignableN v b ctx).1), (toAssignableN v b ctx).2) := by
  rw [toAssignableN.eq_1]
  simp [h]
  split <;> simp_all

theorem toAssignableN_spread_none (h : n.type = "SpreadElement")
    (ha : n.argument = none) :
    toAssignableN n b ctx = (n.setType "RestElement", none) := by
  rw [toAssignableN.eq_1]
  simp [h]
  split <;> simp_all

theorem toAssignableN_spread_some (h : n.type = "SpreadElement")
    (ha : n.argument = some a) :
    toAssignableN n b ctx =
      ((n.setType "RestElement").setArgument (some (toAssignableN a b ctx).1),
        (toAssignableN a b ctx).2) := by
  rw [toAssignableN.eq_1]
  simp [h]
  split <;> simp_all

theorem toAssignableN_arrExpr (h : n.type = "ArrayExpression") :
    toAssignableN n b ctx =
      ((n.setType "ArrayPattern").setElements (toAssignableList n.elements b ctx).1,
        (toAssignableList n.elements b ctx).2) := by
  rw [toAssignableN.eq_1]
  simp [h]

theorem toAssignableN_assignEq (h : n.type = "AssignmentExpression")
    (hop : n.operator = some "=") :
    toAssignableN n b ctx = ((n.setType "AssignmentPattern").setOperator none, none) := by
  rw [toAssignableN.eq_1]
  simp [h, hop]

theorem toAssignableN_assignNe (h : n.type = "AssignmentExpression")
    (hop : n.operator ≠ some "=") :
    toAssignableN n b ctx = (n, some ⟨n.leftEnd, malformedDefaultMsg⟩) := by
  rw [toAssignableN.eq_1]
  simp [h, hop]

theorem toAssignableN_member (h : n.type = "MemberExpression")
    (hb : b = false) :
    toAssignableN n b ctx = (n, none) := by
  rw [toAssignableN.eq_1]
  simp [h, hb]

theorem toAssignableN_memberBinding (h : n.type = "MemberExpression")
    (hb : b = true) :
    toAssignableN n b ctx = (n, some ⟨n.start, invalidLHSMsg ctx⟩) := by
  rw [toAssignableN.eq_1]
  simp [h, hb]

theorem toAssignableN_default
    (h1 : n.type ≠ "Identifier") (h2 : n.type ≠ "PrivateName")
    (h3 : n.type ≠ "ObjectPattern") (h4 : n.type ≠ "ArrayPattern")
    (h5 : n.type ≠ "AssignmentPattern") (h6 : n.type ≠ "ObjectExpression")
    (h7 : n.type ≠ "ObjectProperty") (h8 : n.type ≠ "SpreadElement")
    (h9 : n.type ≠ "ArrayExpression") (h10 : n.type ≠ "AssignmentExpression")
    (h11 : n.type ≠ "MemberExpression" ∨ b = true) :
    toAssignableN n b ctx = (n, some ⟨n.start, invalidLHSMsg ctx⟩) := by
  rw [toAssignableN.eq_1]
  rcases h11 with h11 | h11 <;>
    simp [h1, h2, h3, h4, h5, h6, h7, h8, h9, h10, h11]

theorem toAssignableList_nil : toAssignableList [] b ctx = ([], none) := by
  rw [toAssignableList.eq_1]
  split <;> simp_all

theorem toAssignableList_lastHole {l : List (Option Node)}
    (hl : l.getLast? = some none) :
    toAssignableList l b ctx = convertElems l b ctx := by
  rw [toAssignableList.eq_1]
  split <;> simp_all

theorem toAssignableList_lastRest {l : List (Option Node)}
    (hl : l.getLast? = some (some lastN)) (ht : lastN.type = "RestElement") :
    toAssignableList l b ctx =
      ((convertElems l.dropLast b ctx).1 ++ [some lastN],
        (convertElems l.dropLast b ctx).2) := by
  rw [toAssignableList.eq_1]
  split <;> simp_all

theorem toAssignableList_lastSpread_noArg {l : List (Option Node)}
    (hl : l.getLast? = some (some lastN)) (ht : lastN.type = "SpreadElement")
    (ha : lastN.argument = none) :
    toAssignableList l b ctx =
      (l.dropLast ++ [some (lastN.setType "RestElement")],
        some ⟨0, unexpectedMsg⟩) := by
  rw [toAssignableList.eq_1]
  split <;> simp_all
  split <;> simp_all

theorem toAssignableList_lastSpread_err {l : List (Option Node)} {e : Err}
    (hl : l.getLast? = some (some lastN)) (ht : lastN.type = "SpreadElement")
    (ha : lastN.argument = some a) (he : (toAssignableN a b ctx).2 = some e) :
    toAssignableList l b ctx =
      (l.dropLast ++
        [some ((lastN.setType "RestElement").setArgument
          (some (toAssignableN a b ctx).1))],
        some e) := by
  rw [toAssignableList.eq_1]
  split <;> simp_all
  split <;> simp_all

theorem toAssignableList_lastSpread_ok {l : List (Option Node)}
    (hl : l.getLast? = some (some lastN)) (ht : lastN.type = "SpreadElement")
    (ha : lastN.argument = some a) (he : (toAssignableN a b ctx).2 = none)
    (hty : (toAssignableN a b ctx).1.type = "Identifier"
      ∨ (toAssignableN a b ctx).1.type = "MemberExpression"
      ∨ (toAssignableN a b ctx).1.type = "ArrayPattern") :
    toAssignableList l b ctx =
      ((convertElems l.dropLast b ctx).1 ++
        [some ((lastN.setType "RestElement").setArgument
          (some (toAssignableN a b ctx).1))],
        (convertElems l.dropLast b ctx).2) := by
  rw [toAssignableList.eq_1]
  split <;> simp_all
  split <;> simp_all

theorem toAssignableList_lastSpread_badType {l : List (Option Node)}
    (hl : l.getLast? = some (some lastN)) (ht : lastN.type = "SpreadElement")
    (ha : lastN.argument = some a) (he : (toAssignableN a b ctx).2 = none)
    (hty : ¬ ((toAssignableN a b ctx).1.type = "Identifier"
      ∨ (toAssignableN a b ctx).1.type = "MemberExpression"
      ∨ (toAssignableN a b ctx).1.type = "ArrayPattern")) :
    toAssignableList l b ctx =
      (l.dropLast ++
        [some ((lastN.setType "RestElement").setArgument
          (some (toAssignableN a b ctx).1))],
        some ⟨(toAssignableN a b ctx).1.start, unexpectedMsg⟩) := by
  rw [toAssignableList.eq_1]
  split <;> simp_all
  split <;> simp_all

theorem toAssignableList_lastOther {l : List (Option Node)}
    (hl : l.getLast? = some (some lastN)) (h1 : lastN.type ≠ "RestElement")
    (h2 : lastN.type ≠ "SpreadElement") :
    toAssignableList l b ctx = convertElems l b ctx := by
  rw [toAssignableList.eq_1]
  split <;> simp_all

end RewriteLemmas

/-! ## checkLVal -/

/-- The clash map: the set of keys marked true so far. The source uses a
plain object as a string-keyed map; it is modelled here as the list of
marked keys (the prototype chain of the host language is not modelled;
lookup is exact key membership). -/
abbrev ClashMap := List String

/-- The forward-declared checkReservedWord collaborator (defined in
expression.js, outside this file): given word, startLoc, checkKeywords,
isBinding, it either raises or returns. -/
abbrev ReservedChecker := String → Nat → Bool → Bool → Option Err

mutual

/-- checkLVal: validates that a node is assignable, threading the optional
clash map and returning the first raised error, if any. -/
def checkLVal (res : ReservedChecker) (expr : Node) (isBinding : Bool)
    (checkClashes : Option ClashMap) (ctx : String) :
    Option ClashMap × Option Err :=
  if expr.type = "PrivateName" ∨ expr.type = "Identifier" then
    match res expr.name expr.start false true with
    | some e => (checkClashes, some e)
    | none =>
      match checkClashes with
      | none => (checkClashes, none)
      | some m =>
        let key := "_" ++ expr.name
        if key ∈ m then
          (checkClashes, some ⟨expr.start, clashMsg⟩)
        else
          (some (key :: m), none)
  else if expr.type = "MemberExpression" then
    if isBinding then
      (checkClashes,
        some ⟨expr.start,
          (if isBinding then "Binding" else "Assigning to") ++ " member expression"⟩)
    else
      (checkClashes, none)
  else if expr.type = "ObjectPattern" then
    checkProps res expr.properties isBinding checkClashes
  else if expr.type = "ArrayPattern" then
    checkElems res expr.elements isBinding checkClashes
  else if expr.type = "AssignmentPattern" then
    match h : expr.left with
    | some l => checkLVal res l isBinding checkClashes "assignment pattern"
    | none => (checkClashes, none)
  else if expr.type = "RestElement" then
    match h : expr.argument with
    | some a => checkLVal res a isBinding checkClashes "rest element"
    | none => (checkClashes, none)
  else
    (checkClashes,
      some ⟨expr.start,
        (if isBinding then "Binding invalid" else "Invalid") ++ " left-hand side"
          ++ (if ctx ≠ "" then " in " ++ ctx else "expression")⟩)
termination_by sizeOf expr
decreasing_by
  all_goals simp_wf
  · have := sizeOf_properties_lt expr
    omega
  · have := sizeOf_elements_lt expr
    omega
  · exact sizeOf_left_lt h
  · exact sizeOf_argument_lt h

/-- The property loop of the ObjectPattern case of checkLVal: a property
wrapping a value is replaced by that value before recursing. -/
def checkProps (res : ReservedChecker) (ps : List Node) (isBinding : Bool)
    (checkClashes : Option ClashMap) : Option ClashMap × Option Err :=
  match ps with
  | [] => (checkClashes, none)
  | p :: tl =>
    let tgt := if p.type = "ObjectProperty" then p.valueD else p
    let r := checkLVal res tgt isBinding checkClashes "object destructuring pattern"
    match r.2 with
    | some e => (r.1, some e)
    | none => checkProps res tl isBinding r.1
termination_by sizeOf ps
decreasing_by
  all_goals simp_wf
  all_goals have h1 := sizeOf_valueD_le p
  all_goals (try split)
  all_goals (try simp only [List.cons.sizeOf_spec])
  all_goals omega

/-- The element loop of the ArrayPattern case of checkLVal: holes are
skipped. -/
def checkElems (res : ReservedChecker) (es : List (Option Node))
    (isBinding : Bool) (checkClashes : Option ClashMap) :
    Option ClashMap × Option Err :=
  match es with
  | [] => (checkClashes, none)
  | none :: tl => checkElems res tl isBinding checkClashes
  | some n :: tl =>
    let r := checkLVal res n isBinding checkClashes "array destructuring pattern"
    match r.2 with
    | some e => (r.1, some e)
    | none => checkElems res tl isBinding r.1
termination_by sizeOf es
decreasing_by
  all_goals simp_wf
  all_goals
    (try simp only [List.cons.sizeOf_spec, Option.some.sizeOf_spec]) <;> omega

end

section CheckLValRewriteLemmas

variable {res : ReservedChecker} {expr : Node} {b : Bool}
variable {cc : Option ClashMap} {m : ClashMap} {ctx : String} {e : Err}

theorem checkLVal_ident_reserved
    (h : expr.type = "PrivateName" ∨ expr.type = "Identifier")
    (hr : res expr.name expr.start false true = some e) :
    checkLVal res expr b cc ctx = (cc, some e) := by
  cases cc with
  | none => rw [checkLVal.eq_1]; rcases h with h | h <;> simp [h, hr]
  | some m => rw [checkLVal.eq_2]; rcases h with h | h <;> simp [h, hr]

theorem checkLVal_ident_noMap
    (h : expr.type = "PrivateName" ∨ expr.type = "Identifier")
    (hr : res expr.name expr.start false true = none) :
    checkLVal res expr b none ctx = (none, none) := by
  rw [checkLVal.eq_1]
  rcases h with h | h <;> simp [h, hr]

theorem checkLVal_ident_dup
    (h : expr.type = "PrivateName" ∨ expr.type = "Identifier")
    (hr : res expr.name expr.start false true = none)
    (hm : ("_" ++ expr.name) ∈ m) :
    checkLVal res expr b (some m) ctx = (some m, some ⟨expr.start, clashMsg⟩) := by
  rw [checkLVal.eq_2]
  rcases h with h | h <;> simp [h, hr, hm]

theorem checkLVal_ident_mark
    (h : expr.type = "PrivateName" ∨ expr.type = "Identifier")
    (hr : res expr.name expr.start false true = none)
    (hm : ("_" ++ expr.name) ∉ m) :
    checkLVal res expr b (some m) ctx =
      (some (("_" ++ expr.name) :: m), none) := by
  rw [checkLVal.eq_2]
  rcases h with h | h <;> simp [h, hr, hm]

theorem checkLVal_member (h : expr.type = "MemberExpression") :
    checkLVal res expr b cc ctx =
      (cc, if b then some ⟨expr.start, "Binding member expression"⟩ else none) := by
  cases cc with
  | none => rw [checkLVal.eq_1]; cases b <;> simp [h]
  | some m => rw [checkLVal.eq_2]; cases b <;> simp [h]

end CheckLValRewriteLemmas

/-! ## Reachability and the pattern family -/

/-- The pattern-family discriminants. -/
def patternFamily : List String :=
  ["Identifier", "PrivateName", "ObjectPattern", "ArrayPattern",
   "AssignmentPattern", "RestElement"]

section ReachSizeLemmas

theorem sizeOf_value_opt_lt (n : Node) : sizeOf n.value < sizeOf n := by
  cases n with
  | mk t s e nm op k ps es vv aa l ky =>
    simp [Node.value] <;> omega

theorem sizeOf_argument_opt_lt (n : Node) : sizeOf n.argument < sizeOf n := by
  cases n with
  | mk t s e nm op k ps es vv aa l ky =>
    simp [Node.argument] <;> omega

theorem sizeOf_left_opt_lt (n : Node) : sizeOf n.left < sizeOf n := by
  cases n with
  | mk t s e nm op k ps es vv aa l ky =>
    simp [Node.left] <;> omega

theorem sizeOf_key_opt_lt (n : Node) : sizeOf n.key < sizeOf n := by
  cases n with
  | mk t s e nm op k ps es vv aa l ky =>
    simp [Node.key] <;> omega

end ReachSizeLemmas

mutual

/-- allNodes p n: p holds on n and on every node reachable from n through
the child fields (properties, elements, value, argument, left, key). -/
def allNodes (p : Node → Bool) (n : Node) : Bool :=
  p n && allNodesList p n.properties && allNodesOList p n.elements
    && allNodesOpt p n.value && allNodesOpt p n.argument
    && allNodesOpt p n.left && allNodesOpt p n.key
termination_by sizeOf n
decreasing_by
  all_goals simp_wf
  · have := sizeOf_properties_lt n
    omega
  · have := sizeOf_elements_lt n
    omega
  · have := sizeOf_value_opt_lt n
    omega
  · have := sizeOf_argument_opt_lt n
    omega
  · have := sizeOf_left_opt_lt n
    omega
  · have := sizeOf_key_opt_lt n
    omega

def allNodesOpt (p : Node → Bool) : Option Node → Bool
  | none => true
  | some n => allNodes p n
termination_by o => sizeOf o
decreasing_by
  all_goals simp_wf

def allNodesList (p : Node → Bool) : List Node → Bool
  | [] => true
  | n :: tl => allNodes p n && allNodesList p tl
termination_by l => sizeOf l
decreasing_by
  all_goals simp_wf
  all_goals ((try simp) <;> omega)

def allNodesOList (p : Node → Bool) : List (Option Node) → Bool
  | [] => true
  | o :: tl => allNodesOpt p o && allNodesOList p tl
termination_by l => sizeOf l
decreasing_by
  all_goals simp_wf
  all_goals ((try simp) <;> omega)

end

section LoopRewriteLemmas

variable {n p : Node} {b : Bool} {ctx : String} {e : Err}
variable {tl : List (Option Node)} {ptl : List Node}

theorem convertElems_nil : convertElems [] b ctx = ([], none) := by
  rw [convertElems]

theorem convertElems_hole :
    convertElems (none :: tl) b ctx =
      (none :: (convertElems tl b ctx).1, (convertElems tl b ctx).2) := by
  rw [convertElems]

theorem convertElems_spreadHead (h : n.type = "SpreadElement") :
    convertElems (some n :: tl) b ctx =
      (some n :: tl, some ⟨n.start, misplacedRestMsg⟩) := by
  rw [convertElems]
  simp [h]

theorem convertElems_consErr (h : n.type ≠ "SpreadElement")
    (he : (toAssignableN n b ctx).2 = some e) :
    convertElems (some n :: tl) b ctx =
      (some (toAssignableN n b ctx).1 :: tl, some e) := by
  rw [convertElems]
  simp [h, he]

theorem convertElems_consOk (h : n.type ≠ "SpreadElement")
    (he : (toAssignableN n b ctx).2 = none) :
    convertElems (some n :: tl) b ctx =
      (some (toAssignableN n b ctx).1 :: (convertElems tl b ctx).1,
        (convertElems tl b ctx).2) := by
  rw [convertElems]
  simp [h, he]

theorem convertProps_nil : convertProps [] b = ([], none) := by
  rw [convertProps]

theorem convertProps_methodHead (h : p.type = "ObjectMethod") :
    convertProps (p :: ptl) b =
      (p :: ptl,
        some ⟨p.keyStart,
          if p.kind = "get" ∨ p.kind = "set" then accessorMsg else methodMsg⟩) := by
  rw [convertProps]
  by_cases hk : p.kind = "get" ∨ p.kind = "set" <;> simp [h, hk]

theorem convertProps_consErr (h : p.type ≠ "ObjectMethod")
    (he : (toAssignableN p b "object destructuring pattern").2 = some e) :
    convertProps (p :: ptl) b =
      ((toAssignableN p b "object destructuring pattern").1 :: ptl, some e) := by
  rw [convertProps]
  simp [h, he]

theorem convertProps_consOk (h : p.type ≠ "ObjectMethod")
    (he : (toAssignableN p b "object destructuring pattern").2 = none) :
    convertProps (p :: ptl) b =
      ((toAssignableN p b "object destructuring pattern").1
          :: (convertProps ptl b).1,
        (convertProps ptl b).2) := by
  rw [convertProps]
  simp [h, he]

end LoopRewriteLemmas

section LoopCharacterization

variable {b : Bool} {ctx : String}

/-- Every present, non-spread element that converts cleanly: the loop maps
toAssignable over the list and reports no error. -/
theorem convertElems_clean {l : List (Option Node)}
    (h : ∀ n : Node, some n ∈ l →
      n.type ≠ "SpreadElement" ∧ (toAssignableN n b ctx).2 = none) :
    convertElems l b ctx =
      (l.map (Option.map (fun n => (toAssignableN n b ctx).1)), none) := by
  induction l with
  | nil => simp [convertElems_nil]
  | cons o tl ih =>
    have htl : ∀ n : Node, some n ∈ tl →
        n.type ≠ "SpreadElement" ∧ (toAssignableN n b ctx).2 = none :=
      fun n hm => h n (List.mem_cons_of_mem _ hm)
    cases o with
    | none =>
      rw [convertElems_hole, ih htl]
      simp
    | some n =>
      have hn := h n (List.mem_cons_self _ _)
      rw [convertElems_consOk hn.1 hn.2, ih htl]
      simp

/-- A present SpreadElement before the end, with a cleanly converting
prefix: the loop fails with the misplaced-rest error at that element,
leaving it and everything after it untouched. -/
theorem convertElems_spreadAt {pre suf : List (Option Node)} {n : Node}
    (hpre : ∀ m : Node, some m ∈ pre →
      m.type ≠ "SpreadElement" ∧ (toAssignableN m b ctx).2 = none)
    (hn : n.type = "SpreadElement") :
    convertElems (pre ++ some n :: suf) b ctx =
      (pre.map (Option.map (fun m => (toAssignableN m b ctx).1))
          ++ some n :: suf,
        some ⟨n.start, misplacedRestMsg⟩) := by
  induction pre with
  | nil => simp [convertElems_spreadHead hn]
  | cons o tl ih =>
    have htl : ∀ m : Node, some m ∈ tl →
        m.type ≠ "SpreadElement" ∧ (toAssignableN m b ctx).2 = none :=
      fun m hm => hpre m (List.mem_cons_of_mem _ hm)
    cases o with
    | none =>
      rw [List.cons_append, convertElems_hole, ih htl]
      simp
    | some m =>
      have hm := hpre m (List.mem_cons_self _ _)
      rw [List.cons_append, convertElems_consOk hm.1 hm.2, ih htl]
      simp

/-- A present SpreadElement anywhere in the loop always produces an error. -/
theorem convertElems_spread_isSome {l : List (Option Node)} {n : Node}
    (hm : some n ∈ l) (hn : n.type = "SpreadElement") :
    (convertElems l b ctx).2.isSome := by
  induction l with
  | nil => simp at hm
  | cons o tl ih =>
    cases o with
    | none =>
      rw [convertElems_hole]
      exact ih (by simpa using hm)
    | some m =>
      by_cases hsp : m.type = "SpreadElement"
      · rw [convertElems_spreadHead hsp]
        simp
      · have hmem : some n ∈ tl := by
          rcases List.mem_cons.mp hm with h1 | h1
          · injection h1 with h2
            exact absurd (h2 ▸ hn) hsp
          · exact h1
        cases he : (toAssignableN m b ctx).2 with
        | some e =>
          rw [convertElems_consErr hsp he]
          simp
        | none =>
          rw [convertElems_consOk hsp he]
          exact ih hmem

/-- All non-method properties convert cleanly: the loop maps toAssignable
over the list and reports no error. -/
theorem convertProps_clean {ps : List Node} {b : Bool}
    (h : ∀ q ∈ ps, q.type ≠ "ObjectMethod"
      ∧ (toAssignableN q b "object destructuring pattern").2 = none) :
    convertProps ps b =
      (ps.map (fun q => (toAssignableN q b "object destructuring pattern").1),
        none) := by
  induction ps with
  | nil => simp [convertProps_nil]
  | cons p tl ih =>
    have hp := h p (List.mem_cons_self _ _)
    have htl : ∀ q ∈ tl, q.type ≠ "ObjectMethod"
        ∧ (toAssignableN q b "object destructuring pattern").2 = none :=
      fun q hq => h q (List.mem_cons_of_mem _ hq)
    rw [convertProps_consOk hp.1 hp.2, ih htl]
    simp

/-- The first ObjectMethod property, after a cleanly converting prefix of
non-method properties, raises the accessor message for get/set kinds and
the generic method message otherwise, leaving it and the rest untouched. -/
theorem convertProps_method {pre : List Node} {p : Node} {tl : List Node}
    {b : Bool}
    (hpre : ∀ q ∈ pre, q.type ≠ "ObjectMethod"
      ∧ (toAssignableN q b "object destructuring pattern").2 = none)
    (hp : p.type = "ObjectMethod") :
    convertProps (pre ++ p :: tl) b =
      (pre.map (fun q => (toAssignableN q b "object destructuring pattern").1)
          ++ p :: tl,
        some ⟨p.keyStart,
          if p.kind = "get" ∨ p.kind = "set" then accessorMsg else methodMsg⟩) := by
  induction pre with
  | nil => simp [convertProps_methodHead hp]
  | cons q tl2 ih =>
    have hq := hpre q (List.mem_cons_self _ _)
    have htl2 : ∀ q2 ∈ tl2, q2.type ≠ "ObjectMethod"
        ∧ (toAssignableN q2 b "object destructuring pattern").2 = none :=
      fun q2 hq2 => hpre q2 (List.mem_cons_of_mem _ hq2)
    rw [List.cons_append, convertProps_consOk hq.1 hq.2, ih htl2]
    simp

end LoopCharacterization

section MoreListLemmas

theorem getLastQ_eq_none {α : Type} {l : List α} (h : l.getLast? = none) :
    l = [] := by
  cases l with
  | nil => rfl
  | cons a t =>
    exfalso
    induction t generalizing a with
    | nil => simp at h
    | cons b t2 ih =>
      rw [List.getLast?_cons_cons] at h
      exact ih b h

theorem underscore_append_inj {a b : String} (h : "_" ++ a = "_" ++ b) :
    a = b := by
  have hd := congrArg String.data h
  simp [String.data_append] at hd
  exact String.ext hd

end MoreListLemmas

section SetterAccessorLemmas

variable (n : Node) (t : String) (op : Option String) (ps : List Node)
variable (es : List (Option Node)) (v a : Option Node)

@[simp] theorem setType_type : (n.setType t).type = t := by cases n; rfl

@[simp] theorem setType_operator : (n.setType t).operator = n.operator := by
  cases n; rfl

@[simp] theorem setType_properties : (n.setType t).properties = n.properties := by
  cases n; rfl

@[simp] theorem setType_elements : (n.setType t).elements = n.elements := by
  cases n; rfl

@[simp] theorem setType_value : (n.setType t).value = n.value := by cases n; rfl

@[simp] theorem setType_argument : (n.setType t).argument = n.argument := by
  cases n; rfl

@[simp] theorem setType_left : (n.setType t).left = n.left := by cases n; rfl

@[simp] theorem setType_start : (n.setType t).start = n.start := by cases n; rfl

@[simp] theorem setOperator_type : (n.setOperator op).type = n.type := by
  cases n; rfl

@[simp] theorem setOperator_operator : (n.setOperator op).operator = op := by
  cases n; rfl

@[simp] theorem setOperator_left : (n.setOperator op).left = n.left := by
  cases n; rfl

@[simp] theorem setProperties_type : (n.setProperties ps).type = n.type := by
  cases n; rfl

@[simp] theorem setProperties_properties :
    (n.setProperties ps).properties = ps := by cases n; rfl

@[simp] theorem setElements_type : (n.setElements es).type = n.type := by
  cases n; rfl

@[simp] theorem setElements_elements : (n.setElements es).elements = es := by
  cases n; rfl

@[simp] theorem setValue_type : (n.setValue v).type = n.type := by cases n; rfl

@[simp] theorem setValue_value : (n.setValue v).value = v := by cases n; rfl

@[simp] theorem setArgument_type : (n.setArgument a).type = n.type := by
  cases n; rfl

@[simp] theorem setArgument_argument : (n.setArgument a).argument = a := by
  cases n; rfl

end SetterAccessorLemmas

section SpreadNonLast

/-- A present SpreadElement at a non-last position makes toAssignableList
fail, whatever else the sequence contains. -/
theorem toAssignableList_spreadNonLast_isSome
    {pre suf : List (Option Node)} {n : Node} {b : Bool} {ctx : String}
    (hn : n.type = "SpreadElement") (hsuf : suf ≠ []) :
    (toAssignableList (pre ++ some n :: suf) b ctx).2.isSome = true := by
  have hmem : some n ∈ pre ++ some n :: suf :=
    List.mem_append_right _ (List.mem_cons_self _ _)
  have hmem_dl : some n ∈ (pre ++ some n :: suf).dropLast := by
    rw [List.dropLast_append_cons, List.dropLast_cons_of_ne_nil hsuf]
    exact List.mem_append_right _ (List.mem_cons_self _ _)
  cases hv : (pre ++ some n :: suf).getLast? with
  | none =>
    have := getLastQ_eq_none hv
    simp at this
  | some o =>
    cases o with
    | none =>
      rw [toAssignableList_lastHole hv]
      exact convertElems_spread_isSome hmem hn
    | some lastN =>
      by_cases h1 : lastN.type = "RestElement"
      · rw [toAssignableList_lastRest hv h1]
        exact convertElems_spread_isSome hmem_dl hn
      · by_cases h2 : lastN.type = "SpreadElement"
        · cases ha : lastN.argument with
          | none =>
            rw [toAssignableList_lastSpread_noArg hv h2 ha]
            rfl
          | some a =>
            cases he : (toAssignableN a b ctx).2 with
            | some e =>
              rw [toAssignableList_lastSpread_err hv h2 ha he]
              rfl
            | none =>
              by_cases hty : (toAssignableN a b ctx).1.type = "Identifier"
                  ∨ (toAssignableN a b ctx).1.type = "MemberExpression"
                  ∨ (toAssignableN a b ctx).1.type = "ArrayPattern"
              · rw [toAssignableList_lastSpread_ok hv h2 ha he hty]
                exact convertElems_spread_isSome hmem_dl hn
              · rw [toAssignableList_lastSpread_badType hv h2 ha he hty]
                rfl
        · rw [toAssignableList_lastOther hv h1 h2]
          exact convertElems_spread_isSome hmem hn

end SpreadNonLast

/-! ## Concrete nodes used to instantiate the theorems -/

/-- Identifier a. -/
def identA : Node := .mk "Identifier" 0 1 "a" none "" [] [] none none none none

/-- Identifier b. -/
def identB : Node := .mk "Identifier" 3 4 "b" none "" [] [] none none none none

/-- A member expression such as o.x. -/
def memberX : Node := .mk "MemberExpression" 5 8 "" none "" [] [] none none none none

/-- a = b as an AssignmentExpression. -/
def assignEqNode : Node :=
  .mk "AssignmentExpression" 0 6 "" (some "=") "" [] [] none none (some identA) none

/-- a += b as an AssignmentExpression: no valid default. -/
def assignPlus : Node :=
  .mk "AssignmentExpression" 0 6 "" (some "+=") "" [] [] none none (some identA) none

/-- ...a as a SpreadElement over identifier a. -/
def spreadIdent : Node :=
  .mk "SpreadElement" 2 5 "" none "" [] [] none (some identA) none none

/-- ...(a += b): a SpreadElement whose argument cannot be converted. -/
def spreadBadArg : Node :=
  .mk "SpreadElement" 0 8 "" none "" [] [] none (some assignPlus) none none

/-- ...a as an already-finalized RestElement. -/
def restIdent : Node :=
  .mk "RestElement" 2 5 "" none "" [] [] none (some identA) none none

/-- An empty ArrayExpression. -/
def arrEmpty : Node := .mk "ArrayExpression" 2 4 "" none "" [] [] none none none none

/-- An ObjectProperty wrapping identifier a as its value. -/
def objPropIdent : Node :=
  .mk "ObjectProperty" 0 2 "" none "" [] [] (some identA) none none none

/-- [] = ... : an AssignmentExpression with operator = whose left side is an
unconverted ArrayExpression. -/
def assignArrLeft : Node :=
  .mk "AssignmentExpression" 0 6 "" (some "=") "" [] [] none none (some arrEmpty) none

/-- The key of an object method. -/
def keyNode : Node := .mk "Identifier" 7 8 "k" none "" [] [] none none none none

/-- get k() \x7b\x7d as an ObjectMethod of kind get. -/
def methodGet : Node :=
  .mk "ObjectMethod" 7 12 "" none "get" [] [] none none none (some keyNode)

/-- k() \x7b\x7d as an ObjectMethod of kind method. -/
def methodPlain : Node :=
  .mk "ObjectMethod" 7 12 "" none "method" [] [] none none none (some keyNode)

/-- An ObjectExpression containing a getter method. -/
def objExprGet : Node :=
  .mk "ObjectExpression" 6 14 "" none "" [methodGet] [] none none none none

/-- The trivial reserved-word collaborator: accepts every word. -/
def resTriv : ReservedChecker := fun _ _ _ _ => none

/-! ## BindingParser state (shouldAllowYieldIdentifier, parseBindingIdentifier) -/

/-- Token kinds from the tokenizer collaborator (../tokenizer/types,
outside this file) that this subsystem compares against. -/
inductive TokenType where
  | yieldTok
  | nameTok
  | bracketL
  | braceL
  | eqTok
  | otherTok
deriving DecidableEq

/-- The slice of the parser state read by parseBindingIdentifier. -/
structure ParserState where
  strict : Bool
  inGenerator : Bool
  tokType : TokenType

/-- this.match(t): the current token has kind t. -/
def matchToken (st : ParserState) (t : TokenType) : Bool :=
  st.tokType = t

/-- shouldAllowYieldIdentifier from the source. -/
def shouldAllowYieldIdentifier (st : ParserState) : Bool :=
  matchToken st TokenType.yieldTok && !st.strict && !st.inGenerator

/-- parseBindingIdentifier: delegates to the parseIdentifier collaborator
(defined in expression.js, outside this file), passing the liberal flag. -/
def parseBindingIdentifier {α : Type} (parseIdentifier : Bool → ParserState → α)
    (st : ParserState) : α :=
  parseIdentifier (shouldAllowYieldIdentifier st) st

/-! ## The claims -/

/-- C4: for a MemberExpression, checkLVal raises exactly when isBinding is
true, never mutates the clash map, and the message names the binding
context ("Binding member expression"). -/
theorem claim4_member :
    ∀ (res : ReservedChecker) (n : Node) (b : Bool) (cc : Option ClashMap)
      (ctx : String), n.type = "MemberExpression" →
      checkLVal res n b cc ctx =
        (cc, if b then some ⟨n.start, "Binding member expression"⟩ else none) :=
  fun _ _ _ _ _ h => checkLVal_member h

/-- Witness for C4 at a concrete member expression: binding fails with the
binding-context message, non-binding succeeds, the map is untouched. -/
theorem claim4_witness :
    checkLVal resTriv memberX true (some []) "x" =
      (some [], some ⟨5, "Binding member expression"⟩)
    ∧ checkLVal resTriv memberX false (some []) "x" = (some [], none) := by
  have h1 := claim4_member resTriv memberX true (some []) "x" rfl
  have h2 := claim4_member resTriv memberX false (some []) "x" rfl
  refine ⟨?_, ?_⟩
  · rw [h1]; rfl
  · rw [h2]; rfl

/-- C5: under one supplied clash map with fresh keys, validating an
Identifier marks its underscore-prefixed key; a second identifier with the
same name then fails with the duplicate-binding error, while one with a
different (fresh) name does not raise. -/
theorem claim5_clash :
    ∀ (res : ReservedChecker) (ctx : String) (m : ClashMap) (n1 n2 : Node)
      (b1 b2 : Bool),
      n1.type = "Identifier" → n2.type = "Identifier" →
      res n1.name n1.start false true = none →
      res n2.name n2.start false true = none →
      ("_" ++ n1.name) ∉ m →
      checkLVal res n1 b1 (some m) ctx = (some (("_" ++ n1.name) :: m), none)
      ∧ (n2.name = n1.name →
          (checkLVal res n2 b2 (some (("_" ++ n1.name) :: m)) ctx).2 =
            some ⟨n2.start, clashMsg⟩)
      ∧ (n2.name ≠ n1.name → ("_" ++ n2.name) ∉ m →
          (checkLVal res n2 b2 (some (("_" ++ n1.name) :: m)) ctx).2 = none) := by
  intro res ctx m n1 n2 b1 b2 ht1 ht2 hr1 hr2 hm1
  refine ⟨checkLVal_ident_mark (Or.inr ht1) hr1 hm1, ?_, ?_⟩
  · intro hsame
    have hmem : ("_" ++ n2.name) ∈ (("_" ++ n1.name) :: m) := by
      rw [hsame]
      exact List.mem_cons_self _ _
    rw [checkLVal_ident_dup (Or.inr ht2) hr2 hmem]
  · intro hdiff hm2
    have hne : ("_" ++ n2.name) ∉ (("_" ++ n1.name) :: m) := by
      intro hmem
      rcases List.mem_cons.mp hmem with h | h
      · exact hdiff (underscore_append_inj h)
      · exact hm2 h
    rw [checkLVal_ident_mark (Or.inr ht2) hr2 hne]

/-- Witness for C5: name a twice clashes on the second validation; name b
after name a does not. -/
theorem claim5_witness :
    checkLVal resTriv identA true (some []) "x" = (some ["_a"], none)
    ∧ (checkLVal resTriv identA true (some ["_a"]) "x").2 = some ⟨0, clashMsg⟩
    ∧ (checkLVal resTriv identB true (some ["_a"]) "x").2 = none := by
  have h1 := claim5_clash resTriv "x" [] identA identA true true rfl rfl rfl rfl
    (by simp)
  have h2 := claim5_clash resTriv "x" [] identA identB true true rfl rfl rfl rfl
    (by simp)
  refine ⟨?_, ?_, ?_⟩
  · have := h1.1
    simpa using this
  · have := h1.2.1 rfl
    simpa using this
  · have := h2.2.2 (by decide) (by simp)
    simpa using this

/-- C6: toAssignable returns any node whose discriminant is Identifier,
PrivateName, ObjectPattern, ArrayPattern or AssignmentPattern unchanged and
without raising, and passes an absent node through unchanged. -/
theorem claim6_idempotent :
    (∀ (n : Node) (b : Bool) (ctx : String),
      (n.type = "Identifier" ∨ n.type = "PrivateName"
        ∨ n.type = "ObjectPattern" ∨ n.type = "ArrayPattern"
        ∨ n.type = "AssignmentPattern") →
      toAssignableN n b ctx = (n, none)
        ∧ toAssignable (some n) b ctx = (some n, none))
    ∧ ∀ (b : Bool) (ctx : String), toAssignable none b ctx = (none, none) := by
  constructor
  · intro n b ctx h
    have h1 : toAssignableN n b ctx = (n, none) := toAssignableN_patt h
    exact ⟨h1, by simp [toAssignable, h1]⟩
  · intro b ctx
    rfl

/-- Witness for C6 at a concrete identifier and at an absent node. -/
theorem claim6_witness :
    toAssignableN identA true "ctx" = (identA, none)
    ∧ toAssignable none true "ctx" = (none, none) :=
  ⟨(claim6_idempotent.1 identA true "ctx" (Or.inl rfl)).1,
    claim6_idempotent.2 true "ctx"⟩

/-- C7: an AssignmentExpression with operator = is retagged to
AssignmentPattern with the operator field removed and no error; any other
operator raises the malformed-default error at left.end and the node is
unchanged (not retagged). -/
theorem claim7_assignment :
    ∀ (n : Node) (b : Bool) (ctx : String), n.type = "AssignmentExpression" →
      (n.operator = some "=" →
        toAssignableN n b ctx =
          ((n.setType "AssignmentPattern").setOperator none, none)
        ∧ ((n.setType "AssignmentPattern").setOperator none).type =
            "AssignmentPattern"
        ∧ ((n.setType "AssignmentPattern").setOperator none).operator = none)
      ∧ (n.operator ≠ some "=" →
        toAssignableN n b ctx = (n, some ⟨n.leftEnd, malformedDefaultMsg⟩)) := by
  intro n b ctx ht
  constructor
  · intro hop
    exact ⟨toAssignableN_assignEq ht hop, by simp, by simp⟩
  · intro hop
    exact toAssignableN_assignNe ht hop

/-- Witness for C7: a = b converts to an AssignmentPattern without its
operator; a += b raises the malformed-default error at position 1. -/
theorem claim7_witness :
    toAssignableN assignEqNode true "x" =
      ((assignEqNode.setType "AssignmentPattern").setOperator none, none)
    ∧ toAssignableN assignPlus true "x" =
        (assignPlus, some ⟨1, malformedDefaultMsg⟩) := by
  have h1 := (claim7_assignment assignEqNode true "x" rfl).1 rfl
  have h2 := (claim7_assignment assignPlus true "x" rfl).2 (by decide)
  refine ⟨h1.1, ?_⟩
  rw [h2]
  rfl

/-- C9: parseBindingIdentifier passes the liberal flag computed by
shouldAllowYieldIdentifier, and when the current token is the yield
keyword that flag is true exactly when the parser is neither strict nor
inside a generator: both conditions are required. -/
theorem claim9_yield :
    ∀ st : ParserState, st.tokType = TokenType.yieldTok →
      ((shouldAllowYieldIdentifier st = true) ↔
        (st.strict = false ∧ st.inGenerator = false))
      ∧ ∀ (α : Type) (pI : Bool → ParserState → α),
          parseBindingIdentifier pI st = pI (!st.strict && !st.inGenerator) st := by
  intro st ht
  constructor
  · cases hs : st.strict <;> cases hg : st.inGenerator <;>
      simp [shouldAllowYieldIdentifier, matchToken, ht, hs, hg]
  · intro α pI
    unfold parseBindingIdentifier shouldAllowYieldIdentifier matchToken
    rw [ht]
    simp

/-- Witness for C9: with a yield token, both flags false allow a liberal
parse; strict mode alone forbids it; a generator body alone forbids it. -/
theorem claim9_witness :
    shouldAllowYieldIdentifier ⟨false, false, TokenType.yieldTok⟩ = true
    ∧ parseBindingIdentifier (fun liberal _ => liberal)
        (⟨true, false, TokenType.yieldTok⟩ : ParserState) = false
    ∧ parseBindingIdentifier (fun liberal _ => liberal)
        (⟨false, true, TokenType.yieldTok⟩ : ParserState) = false := by
  refine ⟨(claim9_yield ⟨false, false, TokenType.yieldTok⟩ rfl).1.mpr ⟨rfl, rfl⟩,
    ?_, ?_⟩
  · rw [(claim9_yield ⟨true, false, TokenType.yieldTok⟩ rfl).2 Bool
      (fun liberal _ => liberal)]
    rfl
  · rw [(claim9_yield ⟨false, true, TokenType.yieldTok⟩ rfl).2 Bool
      (fun liberal _ => liberal)]
    rfl

/-- C10: toAssignable on an ObjectExpression retags the node to
ObjectPattern unconditionally, before the property loop runs, so the retag
is visible even when the loop raises: conversion is not atomic on error. -/
theorem claim10_retagBeforeProps :
    ∀ (n : Node) (b : Bool) (ctx : String), n.type = "ObjectExpression" →
      toAssignableN n b ctx =
        ((n.setType "ObjectPattern").setProperties (convertProps n.properties b).1,
          (convertProps n.properties b).2)
      ∧ (toAssignableN n b ctx).1.type = "ObjectPattern" := by
  intro n b ctx h
  have h1 : toAssignableN n b ctx =
      ((n.setType "ObjectPattern").setProperties (convertProps n.properties b).1,
        (convertProps n.properties b).2) := toAssignableN_objExpr h
  exact ⟨h1, by rw [h1]; simp⟩

/-- Witness for C10: an object expression containing a getter fails with
the accessor error, and at that point its discriminant is already
ObjectPattern. -/
theorem claim10_witness :
    (toAssignableN objExprGet true "x").1.type = "ObjectPattern"
    ∧ (toAssignableN objExprGet true "x").2 = some ⟨7, accessorMsg⟩ := by
  have h := claim10_retagBeforeProps objExprGet true "x" rfl
  refine ⟨h.2, ?_⟩
  rw [h.1]
  have hm : convertProps [methodGet] true =
      ([methodGet], some ⟨methodGet.keyStart,
        if methodGet.kind = "get" ∨ methodGet.kind = "set"
        then accessorMsg else methodMsg⟩) :=
    convertProps_methodHead rfl
  simp only [objExprGet, Node.properties]
  rw [hm]
  rfl

/-- C8: an ObjectExpression is retagged to ObjectPattern and its property
list is processed in order by the loop: the first ObjectMethod raises the
accessor-specific message for kind get or set and the distinct generic
method message for any other kind, while non-method properties are each
recursed into via toAssignable. -/
theorem claim8_objectPattern :
    (∀ (n : Node) (b : Bool) (ctx : String), n.type = "ObjectExpression" →
      toAssignableN n b ctx =
        ((n.setType "ObjectPattern").setProperties (convertProps n.properties b).1,
          (convertProps n.properties b).2))
    ∧ (∀ (pre : List Node) (p : Node) (tl : List Node) (b : Bool),
        (∀ q ∈ pre, q.type ≠ "ObjectMethod"
          ∧ (toAssignableN q b "object destructuring pattern").2 = none) →
        p.type = "ObjectMethod" →
        convertProps (pre ++ p :: tl) b =
          (pre.map (fun q => (toAssignableN q b "object destructuring pattern").1)
              ++ p :: tl,
            some ⟨p.keyStart,
              if p.kind = "get" ∨ p.kind = "set"
              then accessorMsg else methodMsg⟩))
    ∧ accessorMsg ≠ methodMsg
    ∧ (∀ (ps : List Node) (b : Bool),
        (∀ q ∈ ps, q.type ≠ "ObjectMethod"
          ∧ (toAssignableN q b "object destructuring pattern").2 = none) →
        convertProps ps b =
          (ps.map (fun q => (toAssignableN q b "object destructuring pattern").1),
            none)) := by
  refine ⟨?_, ?_, ?_, ?_⟩
  · intro n b ctx h
    exact toAssignableN_objExpr h
  · intro pre p tl b hpre hp
    exact convertProps_method hpre hp
  · simp [accessorMsg, methodMsg]
  · intro ps b h
    exact convertProps_clean h

/-- Witness for C8: a getter method raises the accessor message, a plain
method raises the generic message, and a plain property list converts
without error. -/
theorem claim8_witness :
    convertProps [methodGet] true = ([methodGet], some ⟨7, accessorMsg⟩)
    ∧ convertProps [methodPlain] true = ([methodPlain], some ⟨7, methodMsg⟩)
    ∧ accessorMsg ≠ methodMsg := by
  have h1 := claim8_objectPattern.2.1 [] methodGet [] true (by simp) rfl
  have h2 := claim8_objectPattern.2.1 [] methodPlain [] true (by simp) rfl
  refine ⟨?_, ?_, claim8_objectPattern.2.2.1⟩
  · simp only [List.nil_append, List.map_nil] at h1
    rw [h1]
    rfl
  · simp only [List.nil_append, List.map_nil] at h2
    rw [h2]
    rfl

/-- C2 (amended): a sequence with a present SpreadElement at a non-last
position always makes toAssignableList fail; the failure is the
misplaced-rest error, raised before generic conversion is attempted on
that element, whenever the loop reaches it with a cleanly converting
prefix; holes are passed through without error. -/
theorem claim2_misplacedSpread :
    (∀ (pre suf : List (Option Node)) (n : Node) (b : Bool) (ctx : String),
      n.type = "SpreadElement" → suf ≠ [] →
      (toAssignableList (pre ++ some n :: suf) b ctx).2.isSome = true)
    ∧ (∀ (pre suf : List (Option Node)) (n : Node) (b : Bool) (ctx : String),
      (∀ m : Node, some m ∈ pre →
        m.type ≠ "SpreadElement" ∧ (toAssignableN m b ctx).2 = none) →
      n.type = "SpreadElement" →
      convertElems (pre ++ some n :: suf) b ctx =
        (pre.map (Option.map fun m => (toAssignableN m b ctx).1)
            ++ some n :: suf,
          some ⟨n.start, misplacedRestMsg⟩))
    ∧ (∀ (l : List (Option Node)) (b : Bool) (ctx : String),
      (∀ o ∈ l, o = none) → toAssignableList l b ctx = (l, none)) := by
  refine ⟨?_, ?_, ?_⟩
  · intro pre suf n b ctx hn hsuf
    exact toAssignableList_spreadNonLast_isSome hn hsuf
  · intro pre suf n b ctx hpre hn
    exact convertElems_spreadAt hpre hn
  · intro l b ctx h
    cases hl : l.getLast? with
    | none =>
      have he := getLastQ_eq_none hl
      subst he
      exact toAssignableList_nil
    | some o =>
      have ho := h o (mem_of_getLastQ hl)
      subst ho
      rw [toAssignableList_lastHole hl]
      rw [convertElems_clean (fun n hm => absurd (h _ hm) (by simp))]
      have hmap : ∀ o2 ∈ l,
          Option.map (fun n => (toAssignableN n b ctx).1) o2 = id o2 :=
        fun o2 ho2 => by rw [h o2 ho2]; rfl
      rw [List.map_congr_left hmap, List.map_id]

/-- C2 counterexample: the sequence a += b, ...a, b has a present
SpreadElement at non-last index 1, but the call fails with the
malformed-default error raised while converting the element at index 0,
not with the misplaced-rest error. -/
theorem claim2_counterexample :
    spreadIdent.type = "SpreadElement"
    ∧ (toAssignableList [some assignPlus, some spreadIdent, some identB]
        true "x").2 = some ⟨1, malformedDefaultMsg⟩
    ∧ malformedDefaultMsg ≠ misplacedRestMsg := by
  have he : (toAssignableN assignPlus true "x").2 =
      some ⟨1, malformedDefaultMsg⟩ := by
    rw [toAssignableN_assignNe (by rfl) (by decide)]
    rfl
  refine ⟨rfl, ?_, by simp [malformedDefaultMsg, misplacedRestMsg]⟩
  have hl : ([some assignPlus, some spreadIdent, some identB] :
      List (Option Node)).getLast? = some (some identB) := rfl
  rw [toAssignableList_lastOther hl (by decide) (by decide),
    convertElems_consErr (by decide) he]

/-- Witness for C2: a spread followed by one more element fails, and a
sequence of two holes converts to itself without error. -/
theorem claim2_witness :
    (toAssignableList [some spreadIdent, some identB] true "x").2.isSome = true
    ∧ toAssignableList [none, none] true "x" = ([none, none], none) := by
  have h1 := claim2_misplacedSpread.1 [] [some identB] spreadIdent true "x"
    rfl (by simp)
  have h3 := claim2_misplacedSpread.2.2 [none, none] true "x" (by simp)
  exact ⟨by simpa using h1, h3⟩

/-- C3 (amended): a present last RestElement is left untouched while the
loop converts the earlier elements; a last SpreadElement is retagged to
RestElement and its argument converted, after which an error raised by
that conversion propagates as-is, an argument whose post-conversion
discriminant is not Identifier, MemberExpression or ArrayPattern raises
the unexpected-token error before any earlier element is converted, and
otherwise the loop converts the earlier elements. -/
theorem claim3_lastElement :
    (∀ (front : List (Option Node)) (lastN : Node) (b : Bool) (ctx : String),
      lastN.type = "RestElement" →
      toAssignableList (front ++ [some lastN]) b ctx =
        ((convertElems front b ctx).1 ++ [some lastN],
          (convertElems front b ctx).2))
    ∧ (∀ (front : List (Option Node)) (lastN a : Node) (b : Bool)
        (ctx : String) (e : Err),
      lastN.type = "SpreadElement" → lastN.argument = some a →
      (toAssignableN a b ctx).2 = some e →
      toAssignableList (front ++ [some lastN]) b ctx =
        (front ++ [some ((lastN.setType "RestElement").setArgument
            (some (toAssignableN a b ctx).1))],
          some e))
    ∧ (∀ (front : List (Option Node)) (lastN a : Node) (b : Bool)
        (ctx : String),
      lastN.type = "SpreadElement" → lastN.argument = some a →
      (toAssignableN a b ctx).2 = none →
      ¬((toAssignableN a b ctx).1.type = "Identifier"
        ∨ (toAssignableN a b ctx).1.type = "MemberExpression"
        ∨ (toAssignableN a b ctx).1.type = "ArrayPattern") →
      toAssignableList (front ++ [some lastN]) b ctx =
        (front ++ [some ((lastN.setType "RestElement").setArgument
            (some (toAssignableN a b ctx).1))],
          some ⟨(toAssignableN a b ctx).1.start, unexpectedMsg⟩))
    ∧ (∀ (front : List (Option Node)) (lastN a : Node) (b : Bool)
        (ctx : String),
      lastN.type = "SpreadElement" → lastN.argument = some a →
      (toAssignableN a b ctx).2 = none →
      ((toAssignableN a b ctx).1.type = "Identifier"
        ∨ (toAssignableN a b ctx).1.type = "MemberExpression"
        ∨ (toAssignableN a b ctx).1.type = "ArrayPattern") →
      toAssignableList (front ++ [some lastN]) b ctx =
        ((convertElems front b ctx).1 ++ [some ((lastN.setType
            "RestElement").setArgument (some (toAssignableN a b ctx).1))],
          (convertElems front b ctx).2))
    ∧ (∀ (front : List (Option Node)) (lastN : Node) (b : Bool) (ctx : String),
      lastN.type = "RestElement" →
      (∀ m : Node, some m ∈ front →
        m.type ≠ "SpreadElement" ∧ (toAssignableN m b ctx).2 = none) →
      toAssignableList (front ++ [some lastN]) b ctx =
        (front.map (Option.map fun m => (toAssignableN m b ctx).1)
            ++ [some lastN],
          none)) := by
  refine ⟨?_, ?_, ?_, ?_, ?_⟩
  · intro front lastN b ctx ht
    rw [toAssignableList_lastRest (List.getLast?_concat _) ht,
      List.dropLast_concat]
  · intro front lastN a b ctx e ht ha he
    rw [toAssignableList_lastSpread_err (List.getLast?_concat _) ht ha he,
      List.dropLast_concat]
  · intro front lastN a b ctx ht ha he hty
    rw [toAssignableList_lastSpread_badType (List.getLast?_concat _) ht ha he hty,
      List.dropLast_concat]
  · intro front lastN a b ctx ht ha he hty
    rw [toAssignableList_lastSpread_ok (List.getLast?_concat _) ht ha he hty,
      List.dropLast_concat]
  · intro front lastN b ctx ht hfront
    rw [toAssignableList_lastRest (List.getLast?_concat _) ht,
      List.dropLast_concat, convertElems_clean hfront]

/-- C3 counterexample: a last SpreadElement over the argument a += b fails
with the malformed-default error from converting the argument, not with
the unexpected-token error, although the post-conversion discriminant of
the argument is not Identifier, MemberExpression or ArrayPattern. -/
theorem claim3_counterexample :
    spreadBadArg.type = "SpreadElement"
    ∧ spreadBadArg.argument = some assignPlus
    ∧ (toAssignableList [some spreadBadArg] true "x").2 =
        some ⟨1, malformedDefaultMsg⟩
    ∧ (toAssignableN assignPlus true "x").1.type = "AssignmentExpression"
    ∧ malformedDefaultMsg ≠ unexpectedMsg := by
  have he : (toAssignableN assignPlus true "x").2 =
      some ⟨1, malformedDefaultMsg⟩ := by
    rw [toAssignableN_assignNe (by rfl) (by decide)]
    rfl
  refine ⟨rfl, rfl, ?_, ?_, by simp [malformedDefaultMsg, unexpectedMsg]⟩
  · have hl : ([some spreadBadArg] : List (Option Node)).getLast? =
        some (some spreadBadArg) := rfl
    rw [toAssignableList_lastSpread_err hl rfl rfl he]
  · rw [toAssignableN_assignNe (by rfl) (by decide)]
    rfl

/-- Witness for C3: a singleton RestElement list converts to itself with no
error, and an identifier before it also passes through the loop. -/
theorem claim3_witness :
    toAssignableList [some restIdent] true "x" = ([some restIdent], none)
    ∧ toAssignableList [some identA, some restIdent] true "x" =
        ([some identA, some restIdent], none) := by
  have h1 := claim3_lastElement.1 [] restIdent true "x" rfl
  have h2 := claim3_lastElement.2.2.2.2 [some identA] restIdent true "x" rfl
    (by
      intro m hm
      simp at hm
      subst hm
      exact ⟨by decide, by rw [toAssignableN_patt (Or.inl (by rfl))]⟩)
  constructor
  · rw [show ([some restIdent] : List (Option Node)) = [] ++ [some restIdent]
      from rfl, h1, convertElems_nil]
  · have hid : toAssignableN identA true "x" = (identA, none) :=
      toAssignableN_patt (Or.inl rfl)
    rw [show ([some identA, some restIdent] : List (Option Node)) =
      [some identA] ++ [some restIdent] from rfl, h2]
    simp [hid]

/-- C1 (amended): when toAssignable returns successfully, the discriminant
of the returned node is in the pattern family, or is ObjectProperty (a
wrapper preserved with only its value converted), or is a MemberExpression
left unchanged when isBinding is false; the invariant does not extend to
all reachable descendants, which conversion may leave in the expression
family. -/
theorem claim1_amended :
    ∀ (n n2 : Node) (b : Bool) (ctx : String),
      toAssignableN n b ctx = (n2, none) →
      n2.type ∈ patternFamily ∨ n2.type = "ObjectProperty"
        ∨ (n2.type = "MemberExpression" ∧ b = false) := by
  intro n n2 b ctx h
  by_cases h1 : n.type = "Identifier" ∨ n.type = "PrivateName"
      ∨ n.type = "ObjectPattern" ∨ n.type = "ArrayPattern"
      ∨ n.type = "AssignmentPattern"
  · rw [toAssignableN_patt h1] at h
    injection h with ha hb
    subst ha
    left
    rcases h1 with h1 | h1 | h1 | h1 | h1 <;> simp [patternFamily, h1]
  · simp only [not_or] at h1
    obtain ⟨e1, e2, e3, e4, e5⟩ := h1
    by_cases h2 : n.type = "ObjectExpression"
    · rw [toAssignableN_objExpr h2] at h
      injection h with ha hb
      subst ha
      left
      simp [patternFamily]
    · by_cases h3 : n.type = "ObjectProperty"
      · cases hv : n.value with
        | none =>
          rw [toAssignableN_objProp_none h3 hv] at h
          injection h with ha hb
          subst ha
          right
          left
          exact h3
        | some v =>
          rw [toAssignableN_objProp_some h3 hv] at h
          injection h with ha hb
          subst ha
          right
          left
          simpa using h3
      · by_cases h4 : n.type = "SpreadElement"
        · cases hv : n.argument with
          | none =>
            rw [toAssignableN_spread_none h4 hv] at h
            injection h with ha hb
            subst ha
            left
            simp [patternFamily]
          | some a =>
            rw [toAssignableN_spread_some h4 hv] at h
            injection h with ha hb
            subst ha
            left
            simp [patternFamily]
        · by_cases h5 : n.type = "ArrayExpression"
          · rw [toAssignableN_arrExpr h5] at h
            injection h with ha hb
            subst ha
            left
            simp [patternFamily]
          · by_cases h6 : n.type = "AssignmentExpression"
            · by_cases hop : n.operator = some "="
              · rw [toAssignableN_assignEq h6 hop] at h
                injection h with ha hb
                subst ha
                left
                simp [patternFamily]
              · rw [toAssignableN_assignNe h6 hop] at h
                injection h with ha hb
                exact absurd hb (by simp)
            · by_cases h7 : n.type = "MemberExpression" ∧ b = false
              · rw [toAssignableN_member h7.1 h7.2] at h
                injection h with ha hb
                subst ha
                right
                right
                exact h7
              · have h11 : n.type ≠ "MemberExpression" ∨ b = true := by
                  rcases Decidable.em (n.type = "MemberExpression") with hm | hm
                  · right
                    cases hbv : b with
                    | false => exact absurd ⟨hm, hbv⟩ h7
                    | true => rfl
                  · left
                    exact hm
                rw [toAssignableN_default e1 e2 e3 e4 e5 h2 h3 h4 h5 h6 h11] at h
                injection h with ha hb
                exact absurd hb (by simp)

/-- C1 counterexample: two successful conversions whose results contain
reachable nodes outside the pattern family (isBinding is true in both, so
the MemberExpression exception does not apply): an ObjectProperty wrapper
is returned as such, and a converted AssignmentExpression keeps its
unconverted ArrayExpression left child. -/
theorem claim1_counterexample :
    (toAssignableN objPropIdent true "obj" = (objPropIdent, none)
      ∧ objPropIdent.type = "ObjectProperty"
      ∧ objPropIdent.type ∉ patternFamily
      ∧ objPropIdent.type ≠ "MemberExpression"
      ∧ allNodes (fun m => patternFamily.contains m.type) objPropIdent = false)
    ∧ (toAssignableN assignArrLeft true "assign" =
        ((assignArrLeft.setType "AssignmentPattern").setOperator none, none)
      ∧ ((assignArrLeft.setType "AssignmentPattern").setOperator none).left =
          some arrEmpty
      ∧ arrEmpty.type = "ArrayExpression"
      ∧ arrEmpty.type ∉ patternFamily
      ∧ arrEmpty.type ≠ "MemberExpression"
      ∧ allNodes (fun m => patternFamily.contains m.type)
          ((assignArrLeft.setType "AssignmentPattern").setOperator none) =
            false) := by
  constructor
  · refine ⟨?_, rfl, by decide, by decide, ?_⟩
    · have hid : toAssignableN identA true "obj" = (identA, none) :=
        toAssignableN_patt (Or.inl rfl)
      rw [toAssignableN_objProp_some (show objPropIdent.type = "ObjectProperty"
        from rfl) (show objPropIdent.value = some identA from rfl), hid]
      rfl
    · rw [allNodes]
      simp [objPropIdent, Node.type, patternFamily]
  · refine ⟨?_, rfl, rfl, by decide, by decide, ?_⟩
    · exact toAssignableN_assignEq rfl rfl
    · rw [allNodes]
      rw [show ((assignArrLeft.setType "AssignmentPattern").setOperator
        none).left = some arrEmpty from rfl]
      rw [allNodesOpt, allNodes]
      simp [arrEmpty, Node.type, patternFamily]

/-- Witness for the amended C1 at a concrete identifier conversion. -/
theorem claim1_witness :
    identA.type ∈ patternFamily ∨ identA.type = "ObjectProperty"
      ∨ (identA.type = "MemberExpression" ∧ true = false) :=
  claim1_amended identA identA true "x" (toAssignableN_patt (Or.inl rfl))

end Lval
